import Mathlib

/-!
Shallow embedding of `src/lib.rs` (crate `sssignals`): a synchronous
reactive value container `Signal<T>` holding one value and a growable
list of change handlers, notified on `set` with references to the new
and old value.

Modelling conventions:
* Rust closures (`Handler<T> = Box<dyn FnMut(&T, &T)>`) are opaque to the
  cell: the cell only stores them, appends to the list, and calls them in
  order.  We model a handler by an abstract identifier of type `H`; the
  observable behaviour of a mutation is captured by the *invocation
  trace*: which handler was called, in which order, and with which
  (new, old) argument pair.
* `&mut self` methods become state-passing functions `Signal → … → Signal × …`;
  `&self` methods return the (unchanged) cell alongside their result when a
  frame condition is at stake.
* `std::mem::replace(&mut self.value, new)` is the intermediate state in
  which the storage already holds `new` while `old_value` has been moved
  out; `Signal.setInstalled` names that state explicitly.
-/

/-- `Signal<T>` from `src/lib.rs`: the current value plus the ordered list
of registered change handlers. `H` is the (abstract) type of handlers. -/
structure Signal (T : Type) (H : Type) where
  value : T
  handlers : List H
  deriving Repr, DecidableEq

/-- One call of a handler during `set`: the handler together with the
argument pair `(new, old)` it receives. -/
structure Invocation (T : Type) (H : Type) where
  handler : H
  newArg : T
  oldArg : T
  deriving Repr, DecidableEq

namespace Signal

/-- `Signal::new(default)`: a cell with the initial value and an empty
handler list. -/
def new (d : T) : Signal T H :=
  { value := d, handlers := [] }

/-- `Signal::value(&self)`: a read-only view of the current value. -/
def value' (s : Signal T H) : T :=
  s.value

/-- The state of the cell right after `std::mem::replace(&mut self.value, new)`
inside `Signal::set`: the storage holds `new`, the handler list is untouched. -/
def setInstalled (s : Signal T H) (new : T) : Signal T H :=
  { value := new, handlers := s.handlers }

/-- `Signal::set(&mut self, new)`: replace the stored value, then call every
handler in list order with `(&self.value, &old_value)`.  Returns the final
cell and the invocation trace of the handler loop.  Each handler reads
`&self.value`, i.e. the storage content at call time, which after the
replace is `new`. -/
def set (s : Signal T H) (new : T) : Signal T H × List (Invocation T H) :=
  let old_value := s.value
  let s' := s.setInstalled new
  (s', s'.handlers.map (fun h => ⟨h, s'.value, old_value⟩))

/-- `Signal::on_change(&mut self, handler)`: push the handler onto the end
of the list. -/
def on_change (s : Signal T H) (h : H) : Signal T H :=
  { s with handlers := s.handlers ++ [h] }

/-- `Signal::map(&self, f)`: `Signal::new(f(&self.value))`. -/
def map (s : Signal T H) (f : T → U) : Signal U H :=
  Signal.new (f s.value)

/-- The call `signal.map(f)` as seen by the caller of a `&self` method:
the source cell after the call (unchanged, since the borrow is immutable),
the freshly constructed cell, and the list of arguments `f` was applied
to (the body applies `f` once, to `&self.value`). -/
def mapCall (s : Signal T H) (f : T → U) : Signal T H × Signal U H × List T :=
  (s, Signal.new (f s.value), [s.value])

/-- `Signal::value_copy(&self)` (requires `T: Copy` in Rust): returns the
value itself; in the pure embedding every value is trivially copyable. -/
def value_copy (s : Signal T H) : T :=
  s.value

/-- The call `signal.value_copy()` as seen by the caller: the copy and the
cell after the call (unchanged: the method takes `&self`). -/
def valueCopyCall (s : Signal T H) : T × Signal T H :=
  (s.value, s)

/-- `impl Display for Signal`: `write!(f, "Signal({})", self.value)`.
`fmtT` is `T`'s own `Display` rendering. -/
def displayString (s : Signal T H) (fmtT : T → String) : String :=
  "Signal(" ++ fmtT s.value ++ ")"

/-- `impl Debug for Signal`: `write!(f, "Signal({:?})", self.value)`.
`dbgT` is `T`'s own `Debug` rendering. -/
def debugString (s : Signal T H) (dbgT : T → String) : String :=
  "Signal(" ++ dbgT s.value ++ ")"

/-- `impl Default for Signal`: `Self::new(T::default())`.  `T::default()`
is passed as Lean's `Inhabited.default`. -/
def defaultSignal (T : Type) (H : Type) [Inhabited T] : Signal T H :=
  Signal.new (default : T)

/-- A sequence of `set` calls, discarding the traces. -/
def setMany (s : Signal T H) (ws : List T) : Signal T H :=
  ws.foldl (fun acc w => (acc.set w).1) s

/-- A sequence of `set` calls, collecting the per-call invocation traces
in order. -/
def setManyTraces (s : Signal T H) (ws : List T) : Signal T H × List (List (Invocation T H)) :=
  match ws with
  | [] => (s, [])
  | w :: rest =>
      let step := s.set w
      let tail := setManyTraces step.1 rest
      (tail.1, step.2 :: tail.2)

end Signal

/-- An operation a caller can perform on one cell through its `&mut` API:
a `set` call or an `on_change` registration (the read-only methods do not
change the cell). -/
inductive CellOp (T : Type) (H : Type) where
  | mutate (w : T)
  | register (h : H)
  deriving Repr, DecidableEq

namespace Signal

/-- Run one `CellOp` against a cell. -/
def applyOp (s : Signal T H) : CellOp T H → Signal T H
  | .mutate w => (s.set w).1
  | .register h => s.on_change h

/-- Run a sequence of `CellOp`s against a cell. -/
def applyOps (s : Signal T H) (ops : List (CellOp T H)) : Signal T H :=
  ops.foldl applyOp s

end Signal

/-- The handler registered by an op, if it is a registration. -/
def regOf : CellOp T H → Option H
  | .register h => some h
  | .mutate _ => none

/-- Two separately owned cells, as after `let derived = source.map(f)`:
the caller holds both values; Rust ownership guarantees that an operation
on one cannot touch the other, which the embedding renders by updating
only the addressed component. -/
structure CellPair (T : Type) (U : Type) (H : Type) where
  src : Signal T H
  der : Signal U H
  deriving Repr, DecidableEq

/-- An operation addressed to one of the two separately owned cells. -/
inductive PairOp (T : Type) (U : Type) (H : Type) where
  | mutSrc (w : T)
  | mutDer (w : U)
  | regSrc (h : H)
  | regDer (h : H)
  deriving Repr, DecidableEq

namespace CellPair

/-- Run one `PairOp`: the addressed cell is updated through the `Signal`
API, the other cell is a distinct owned value and is untouched. -/
def applyOp (p : CellPair T U H) : PairOp T U H → CellPair T U H
  | .mutSrc w => { p with src := (p.src.set w).1 }
  | .mutDer w => { p with der := (p.der.set w).1 }
  | .regSrc h => { p with src := p.src.on_change h }
  | .regDer h => { p with der := p.der.on_change h }

/-- Run a sequence of `PairOp`s. -/
def applyOps (p : CellPair T U H) (ops : List (PairOp T U H)) : CellPair T U H :=
  ops.foldl applyOp p

end CellPair

/-- The sub-sequence of a `PairOp` list addressed to the source cell. -/
def srcOps : List (PairOp T U H) → List (CellOp T H) :=
  List.filterMap fun op =>
    match op with
    | .mutSrc w => some (.mutate w)
    | .regSrc h => some (.register h)
    | _ => none

/-- The sub-sequence of a `PairOp` list addressed to the derived cell. -/
def derOps : List (PairOp T U H) → List (CellOp U H) :=
  List.filterMap fun op =>
    match op with
    | .mutDer w => some (.mutate w)
    | .regDer h => some (.register h)
    | _ => none

/-- `Display` of a Rust `i32` (`{}`): decimal rendering. -/
def i32Display (n : Int) : String :=
  toString n

/-- `Debug` of a Rust `&str`/`String` (`{:?}`) restricted to inputs with no
characters needing escapes (such as `"Hello"`): the text wrapped in
double quotes. -/
def strDebug (s : String) : String :=
  "\"" ++ s ++ "\""

/-! ## Helper lemmas -/

theorem set_fst_value (s : Signal T H) (w : T) : (s.set w).1.value = w := rfl

theorem set_fst_handlers (s : Signal T H) (w : T) : (s.set w).1.handlers = s.handlers := rfl

theorem setMany_nil (s : Signal T H) : s.setMany [] = s := rfl

theorem setMany_cons (s : Signal T H) (w : T) (ws : List T) :
    s.setMany (w :: ws) = ((s.set w).1).setMany ws := rfl

/-- After a sequence of `set` calls the stored value is the last argument,
or the starting value if the sequence is empty. -/
theorem setMany_value (s : Signal T H) (ws : List T) :
    (s.setMany ws).value = ws.getLastD s.value := by
  induction ws generalizing s with
  | nil => rfl
  | cons w rest ih =>
      rw [setMany_cons, ih]
      cases rest with
      | nil => rfl
      | cons x xs => simp [List.getLastD]

/-- A sequence of `set` calls never changes the handler list. -/
theorem setMany_handlers (s : Signal T H) (ws : List T) :
    (s.setMany ws).handlers = s.handlers := by
  induction ws generalizing s with
  | nil => rfl
  | cons w rest ih => rw [setMany_cons, ih, set_fst_handlers]

/-! ## Claim theorems -/

/-- C2: after `Construct(v)` then `Mutate(w)`, `Read()` returns `w`; and for
any cell, after any sequence of `Mutate` calls the stored value is the
argument of the most recent call, or the construction argument if the cell
was never mutated. -/
theorem C2_read_follows_mutate (T H : Type) (v w : T) (s : Signal T H) (ws : List T) :
    ((Signal.new v : Signal T H).set w).1.value' = w ∧
    ((Signal.new v : Signal T H).setMany ws).value' = ws.getLastD v ∧
    (s.setMany ws).value' = ws.getLastD s.value' := by
  refine ⟨rfl, ?_, ?_⟩
  · exact setMany_value (Signal.new v) ws
  · exact setMany_value s ws

/-- C3 counterexample: `Display` on a cell holding the integer `42` renders
`"Signal(42)"`, not `"ReactiveCell(42)"` — the claim's envelope does not
match the code (whose own test expects `"Signal(42)"`). -/
theorem C3_counterexample :
    Signal.displayString (Signal.new (42 : Int) : Signal Int Unit) i32Display ≠
      "ReactiveCell(42)" := by
  decide

/-- C3 (amended): `Display` on a cell holding the integer `42` yields exactly
`"Signal(42)"`, `Debug` on a cell holding the text `Hello` yields exactly
`"Signal(\"Hello\")"`, and in general both wrap the value's display/debug
form in the fixed envelope `"Signal(<value>)"`. -/
theorem C3_render_envelope :
    Signal.displayString (Signal.new (42 : Int) : Signal Int Unit) i32Display = "Signal(42)" ∧
    Signal.debugString (Signal.new "Hello" : Signal String Unit) strDebug = "Signal(\"Hello\")" ∧
    (∀ (T H : Type) (s : Signal T H) (fmtT dbgT : T → String),
      s.displayString fmtT = "Signal(" ++ fmtT s.value' ++ ")" ∧
      s.debugString dbgT = "Signal(" ++ dbgT s.value' ++ ")") :=
  ⟨by decide, by decide, fun _ _ _ _ _ => ⟨rfl, rfl⟩⟩

/-- C5: a `Map(f)` call leaves the source cell unchanged — same stored value
and same observer list before and after — and applies the transform exactly
once, to the current value, seeding the new cell with the result. -/
theorem C5_map_is_pure (T U H : Type) (s : Signal T H) (f : T → U) :
    (s.mapCall f).1 = s ∧
    (s.mapCall f).1.value' = s.value' ∧
    (s.mapCall f).1.handlers = s.handlers ∧
    (s.mapCall f).2.2 = [s.value'] ∧
    (s.mapCall f).2.1 = Signal.new (f s.value') :=
  ⟨rfl, rfl, rfl, rfl, rfl⟩

/-- C8: `Mutate` is total — for every starting value and every new value,
mutating a freshly constructed cell (zero observers) produces a defined
result with no observer invocations and `Read()` returning the new value;
and for every cell whatever its observer list, `Read()` after `Mutate(w)`
returns `w`. -/
theorem C8_mutate_total (T H : Type) (v w : T) :
    ((Signal.new v : Signal T H).set w).1.value' = w ∧
    ((Signal.new v : Signal T H).set w).2 = [] ∧
    (∀ s : Signal T H, (s.set w).1.value' = w) :=
  ⟨rfl, rfl, fun _ => rfl⟩

/-- C9: `ReadCopy()` returns the current stored value, has no side effect on
the cell, and the copy is independent of storage: after a later `Mutate(w)`
with `w` different from the stored value, the previously obtained copy
differs from the new stored value. -/
theorem C9_value_copy_independent (T H : Type) (s : Signal T H) (w : T)
    (hne : w ≠ s.value') :
    s.value_copy = s.value' ∧
    (s.valueCopyCall).2 = s ∧
    s.value_copy ≠ ((s.set w).1).value' := by
  refine ⟨rfl, rfl, ?_⟩
  rw [show ((s.set w).1).value' = w from rfl]
  exact fun h => hne (h ▸ rfl)

/-- C9 witness: the independence theorem applied to a cell holding 42 and a
mutation to 43. -/
theorem C9_value_copy_witness :
    (43 : Int) ≠ (Signal.new 42 : Signal Int Nat).value' ∧
    ((Signal.new 42 : Signal Int Nat).value_copy = (Signal.new 42 : Signal Int Nat).value' ∧
      ((Signal.new 42 : Signal Int Nat).valueCopyCall).2 = (Signal.new 42 : Signal Int Nat) ∧
      (Signal.new 42 : Signal Int Nat).value_copy ≠
        (((Signal.new 42 : Signal Int Nat).set 43).1).value') :=
  ⟨by decide, C9_value_copy_independent Int Nat (Signal.new 42) 43 (by decide)⟩

/-- C10: default construction is `Construct(T::default())`; over a type
whose default is zero the resulting cell reads 0 and has an empty observer
list. -/
theorem C10_default_construction :
    (∀ (T H : Type) [Inhabited T], Signal.defaultSignal T H = Signal.new (default : T)) ∧
    (Signal.defaultSignal Int Unit).value' = 0 ∧
    (Signal.defaultSignal Int Unit).handlers = [] :=
  ⟨fun _ _ _ => rfl, rfl, rfl⟩

/-! ## Further helper lemmas -/

theorem set_trace_handlers (s : Signal T H) (w : T) :
    (s.set w).2.map Invocation.handler = s.handlers := by
  show List.map _ (s.handlers.map _) = _
  rw [List.map_map]
  exact List.map_id s.handlers

theorem applyOps_handlers (s : Signal T H) (ops : List (CellOp T H)) :
    (s.applyOps ops).handlers = s.handlers ++ ops.filterMap regOf := by
  induction ops generalizing s with
  | nil => simp [Signal.applyOps]
  | cons op rest ih =>
      cases op with
      | mutate w =>
          have h1 := ih ((s.set w).1)
          simp only [Signal.applyOps, List.foldl_cons] at h1 ⊢
          rw [show Signal.applyOp s (CellOp.mutate w) = (s.set w).1 from rfl, h1,
            set_fst_handlers]
          rfl
      | register h =>
          have h1 := ih (s.on_change h)
          simp only [Signal.applyOps, List.foldl_cons] at h1 ⊢
          rw [show Signal.applyOp s (CellOp.register h) = s.on_change h from rfl, h1]
          show s.handlers ++ [h] ++ _ = _
          simp [regOf]

theorem setManyTraces_length (s : Signal T H) (ws : List T) :
    (s.setManyTraces ws).2.length = ws.length := by
  induction ws generalizing s with
  | nil => rfl
  | cons w rest ih => simp [Signal.setManyTraces, ih]

theorem setManyTraces_fst (s : Signal T H) (ws : List T) :
    (s.setManyTraces ws).1 = s.setMany ws := by
  induction ws generalizing s with
  | nil => rfl
  | cons w rest ih => simp [Signal.setManyTraces, ih, setMany_cons]

theorem setManyTraces_getD (s : Signal T H) (ws : List T) (i : Nat) (hi : i < ws.length) :
    (s.setManyTraces ws).2.getD i [] =
      s.handlers.map (fun h => ⟨h, ws.get ⟨i, hi⟩, (s.setMany (ws.take i)).value⟩) := by
  induction ws generalizing s i with
  | nil => exact absurd hi (by simp)
  | cons w rest ih =>
      cases i with
      | zero => rfl
      | succ j =>
          have hj : j < rest.length := Nat.lt_of_succ_lt_succ hi
          have h1 := ih ((s.set w).1) j hj
          show ((s.setManyTraces (w :: rest)).2).getD (j + 1) [] = _
      -- one step of the trace computation, then the inductive hypothesis
          rw [show (s.setManyTraces (w :: rest)).2 =
            (s.set w).2 :: (((s.set w).1).setManyTraces rest).2 from rfl,
            List.getD_cons_succ, h1]
          rfl

theorem pair_applyOps_components (p : CellPair T U H) (ops : List (PairOp T U H)) :
    (p.applyOps ops).src = p.src.applyOps (srcOps ops) ∧
    (p.applyOps ops).der = p.der.applyOps (derOps ops) := by
  induction ops generalizing p with
  | nil => exact ⟨rfl, rfl⟩
  | cons op rest ih =>
      cases op with
      | mutSrc w => exact ih { p with src := (p.src.set w).1 }
      | mutDer w => exact ih { p with der := (p.der.set w).1 }
      | regSrc h => exact ih { p with src := p.src.on_change h }
      | regDer h => exact ih { p with der := p.der.on_change h }

/-- C1: over any sequence of `Mutate` calls, each call's invocation trace is
exactly the handler list mapped to one invocation per registered handler, in
registration order, every invocation carrying the call's argument as the new
value and the value stored just before the call (the result of the preceding
calls, or the initial value) as the old value — so each observer fires
exactly once per call and all observers of one call see the same pair. -/
theorem C1_observers_fire_in_order (T H : Type) (s : Signal T H) (ws : List T)
    (i : Nat) (hi : i < ws.length) :
    (s.setManyTraces ws).2.length = ws.length ∧
    (s.setManyTraces ws).1 = s.setMany ws ∧
    (s.setManyTraces ws).2.getD i [] =
      s.handlers.map (fun h => ⟨h, ws.get ⟨i, hi⟩, (s.setMany (ws.take i)).value'⟩) :=
  ⟨setManyTraces_length s ws, setManyTraces_fst s ws, setManyTraces_getD s ws i hi⟩

/-- C1 witness: a cell holding 0 with two handlers, mutated by 1 then 2; the
second call's trace invokes both handlers in order with (new, old) = (2, 1). -/
theorem C1_observers_fire_in_order_witness :
    (1 < ([1, 2] : List Int).length) ∧
    (((⟨0, [10, 20]⟩ : Signal Int Nat).setManyTraces [1, 2]).2.length =
        ([1, 2] : List Int).length ∧
      ((⟨0, [10, 20]⟩ : Signal Int Nat).setManyTraces [1, 2]).1 =
        (⟨0, [10, 20]⟩ : Signal Int Nat).setMany [1, 2] ∧
      ((⟨0, [10, 20]⟩ : Signal Int Nat).setManyTraces [1, 2]).2.getD 1 [] =
        (⟨0, [10, 20]⟩ : Signal Int Nat).handlers.map
          (fun h => ⟨h, ([1, 2] : List Int).get ⟨1, by decide⟩,
            ((⟨0, [10, 20]⟩ : Signal Int Nat).setMany (([1, 2] : List Int).take 1)).value'⟩)) :=
  ⟨by decide, C1_observers_fire_in_order Int Nat ⟨0, [10, 20]⟩ [1, 2] 1 (by decide)⟩

/-- C4: `set` installs the new value before any observer runs — the cell
state during the whole handler loop is already the final state
(`setInstalled`), so a handler raising partway leaves the new value stored;
every invocation's new argument is the already-installed stored value, and
its old argument is the value moved out of storage. -/
theorem C4_install_before_notify (T H : Type) (s : Signal T H) (w : T)
    (inv : Invocation T H) (hm : inv ∈ (s.set w).2) :
    (s.set w).1 = s.setInstalled w ∧
    (s.setInstalled w).value' = w ∧
    inv.newArg = (s.set w).1.value' ∧
    inv.oldArg = s.value' := by
  refine ⟨rfl, rfl, ?_, ?_⟩
  all_goals
    have hm2 : inv ∈ s.handlers.map
        (fun h => (⟨h, w, s.value⟩ : Invocation T H)) := hm
    rcases List.mem_map.1 hm2 with ⟨h, _, heq⟩
    rw [← heq]
    rfl

/-- C4 witness: a cell holding 42 with one handler, set to 43; the single
invocation satisfies the install-before-notify properties. -/
theorem C4_install_before_notify_witness :
    ((⟨7, 43, 42⟩ : Invocation Int Nat) ∈ ((⟨42, [7]⟩ : Signal Int Nat).set 43).2) ∧
    (((⟨42, [7]⟩ : Signal Int Nat).set 43).1 = (⟨42, [7]⟩ : Signal Int Nat).setInstalled 43 ∧
      ((⟨42, [7]⟩ : Signal Int Nat).setInstalled 43).value' = 43 ∧
      (⟨7, 43, 42⟩ : Invocation Int Nat).newArg = ((⟨42, [7]⟩ : Signal Int Nat).set 43).1.value' ∧
      (⟨7, 43, 42⟩ : Invocation Int Nat).oldArg = (⟨42, [7]⟩ : Signal Int Nat).value') :=
  ⟨by decide, C4_install_before_notify Int Nat ⟨42, [7]⟩ 43 ⟨7, 43, 42⟩ (by decide)⟩

/-- C6: a `map`-derived cell starts with zero observers whatever the source
holds; registering on the derived cell leaves the source's observers
untouched; and under any interleaved sequence of mutations/registrations on
the separately owned pair, each cell evolves exactly as its own operations
dictate, so neither cell's value or observers ever depend on operations
addressed to the other. -/
theorem C6_map_independent (T U H : Type) (s : Signal T H) (f : T → U)
    (h : H) (ops : List (PairOp T U H)) :
    (s.map f).handlers = [] ∧
    ((CellPair.mk s (s.map f)).applyOp (PairOp.regDer h)).src.handlers = s.handlers ∧
    ((CellPair.mk s (s.map f)).applyOps ops).src = s.applyOps (srcOps ops) ∧
    ((CellPair.mk s (s.map f)).applyOps ops).der = (s.map f).applyOps (derOps ops) :=
  ⟨rfl, rfl, (pair_applyOps_components (CellPair.mk s (s.map f)) ops).1,
    (pair_applyOps_components (CellPair.mk s (s.map f)) ops).2⟩

/-- C7: `on_change` appends the observer at the end of the list, even a
duplicate of an already-registered one (no deduplication); a subsequent
`set` invokes exactly the listed handlers in list order; and over any
sequence of operations, the handler list is the original list extended by
exactly the registered handlers in registration order — nothing is ever
removed or reordered, and only registrations extend the list. -/
theorem C7_register_appends_forever (T H : Type) :
    (∀ (s : Signal T H) (h : H), (s.on_change h).handlers = s.handlers ++ [h]) ∧
    (∀ (s : Signal T H) (h : H),
      ((s.on_change h).on_change h).handlers = s.handlers ++ [h, h]) ∧
    (∀ (s : Signal T H) (h : H) (w : T),
      ((s.on_change h).set w).2.map Invocation.handler = s.handlers ++ [h]) ∧
    (∀ (s : Signal T H) (ops : List (CellOp T H)),
      (s.applyOps ops).handlers = s.handlers ++ ops.filterMap regOf) := by
  refine ⟨fun _ _ => rfl, ?_, ?_, fun s ops => applyOps_handlers s ops⟩
  · intro s h
    show s.handlers ++ [h] ++ [h] = _
    simp
  · intro s h w
    rw [set_trace_handlers]
    rfl
